import Mathlib

/-!
Shallow embedding of the `DBPool` component of DeBankDeFi/NodeX
(`pkg/db/db_pool.go`) together with the protobuf (`pb`) message types it
stores, and a model of the store-engine collaborator (leveldb handles and
batches) described by the specification.

Bytes are modelled as `List Nat`; machine integers (`int32`, `int64`) are
modelled as `Int`, with explicit reduction modulo `2^32` / `2^64` at the
points where the Go code performs fixed-width conversions.
-/

set_option maxHeartbeats 1000000

abbrev Bytes := List Nat

/-! ## Protobuf varint encoding (proto3 wire format, as used by proto.Marshal) -/

/-- proto3 base-128 varint encoding of an unsigned value (little-endian,
continuation bit 0x80 on every byte except the last). -/
def varint (n : Nat) : List Nat :=
  if h : n < 128 then [n] else (n % 128 + 128) :: varint (n / 128)
termination_by n
decreasing_by
  exact Nat.div_lt_self (by omega) (by omega)

/-- Fuel-indexed varint decoder: reads one varint from the front of the byte
list, returning the decoded value and the remaining bytes, or `none` when the
input ends inside a varint. -/
def readVarintF : Nat → List Nat → Option (Nat × List Nat)
  | _, [] => none
  | 0, _ :: _ => none
  | fuel + 1, b :: rest =>
    if b < 128 then some (b, rest)
    else
      match readVarintF fuel rest with
      | some (n, r) => some ((b - 128) + 128 * n, r)
      | none => none

/-- Varint decoder with fuel fixed to the input length (a varint never has
more bytes than its input). -/
def readVarint (bytes : List Nat) : Option (Nat × List Nat) :=
  readVarintF bytes.length bytes

/-- Two's-complement view of an `Int` as an unsigned 64-bit value, as Go's
`uint64(i)` conversion produces for an `int64`. -/
def toUint64 (i : Int) : Nat := (i % (2 ^ 64 : Int)).toNat

/-- Signed interpretation of an unsigned value as a 64-bit `int64`. -/
def int64of (n : Nat) : Int :=
  let m : Int := (n % 2 ^ 64 : Nat)
  if m < 2 ^ 63 then m else m - 2 ^ 64

/-- Signed interpretation of an unsigned value as a 32-bit `int32` (Go
truncates a decoded varint to `int32` for enum fields). -/
def int32of (n : Nat) : Int :=
  let m : Int := (n % 2 ^ 32 : Nat)
  if m < 2 ^ 31 then m else m - 2 ^ 32

/-! ## The `pb.BlockInfo` message (block.proto) -/

/-- `pb.BlockInfo`: chain_id(1):string, env(2):string, block_num(3):int64,
block_hash(4):string, msg_offset(5):int64, block_type(6):enum,
block_size(7):int64.  Strings are byte lists; the enum is its numeric
value. -/
structure BlockInfo where
  chainId : Bytes
  env : Bytes
  blockNum : Int
  blockHash : Bytes
  msgOffset : Int
  blockType : Int
  blockSize : Int
deriving DecidableEq

/-- The zero value of `pb.BlockInfo` (all proto3 defaults). -/
def defaultBlockInfo : BlockInfo := ⟨[], [], 0, [], 0, 0, 0⟩

/-- One serialized proto3 field: either a varint-typed field (wire type 0)
or a length-delimited field (wire type 2). -/
inductive PField
  | fVarint (num : Nat) (val : Nat)
  | fLen (num : Nat) (data : Bytes)
deriving DecidableEq

/-- Wire bytes of one field: varint tag `num*8 + wireType`, then payload. -/
def emitField : PField → List Nat
  | .fVarint num v => varint (num * 8) ++ varint v
  | .fLen num d => varint (num * 8 + 2) ++ varint d.length ++ d

def emitAll : List PField → List Nat
  | [] => []
  | f :: fs => emitField f ++ emitAll fs

/-- proto3 field list of a `BlockInfo`: fields are emitted in field-number
order and a field equal to its default value is omitted entirely (this is
why `proto.Marshal` of the zero message is the empty byte string). -/
def fieldList (r : BlockInfo) : List PField :=
  (if r.chainId = [] then [] else [.fLen 1 r.chainId]) ++
  (if r.env = [] then [] else [.fLen 2 r.env]) ++
  (if r.blockNum = 0 then [] else [.fVarint 3 (toUint64 r.blockNum)]) ++
  (if r.blockHash = [] then [] else [.fLen 4 r.blockHash]) ++
  (if r.msgOffset = 0 then [] else [.fVarint 5 (toUint64 r.msgOffset)]) ++
  (if r.blockType = 0 then [] else [.fVarint 6 (toUint64 r.blockType)]) ++
  (if r.blockSize = 0 then [] else [.fVarint 7 (toUint64 r.blockSize)])

/-- `proto.Marshal` for `pb.BlockInfo`. -/
def protoMarshal (r : BlockInfo) : List Nat := emitAll (fieldList r)

/-- Store a decoded varint field into the message under construction
(known field numbers 3,5,6,7; any other varint field is an unknown field
and leaves the known fields unchanged). -/
def setVarintField (r : BlockInfo) (num : Nat) (v : Nat) : BlockInfo :=
  if num = 3 then { r with blockNum := int64of v }
  else if num = 5 then { r with msgOffset := int64of v }
  else if num = 6 then { r with blockType := int32of v }
  else if num = 7 then { r with blockSize := int64of v }
  else r

/-- Store a decoded length-delimited field (known field numbers 1,2,4). -/
def setLenField (r : BlockInfo) (num : Nat) (d : Bytes) : BlockInfo :=
  if num = 1 then { r with chainId := d }
  else if num = 2 then { r with env := d }
  else if num = 4 then { r with blockHash := d }
  else r

/-- Fuel-indexed proto3 message parser: repeatedly reads a tag varint and a
payload according to the wire type (0 varint, 1 eight fixed bytes, 2
length-delimited, 5 four fixed bytes; anything else is a parse error), and
fails when the input is truncated. -/
def parseFieldsF : Nat → List Nat → BlockInfo → Option BlockInfo
  | _, [], r => some r
  | 0, _ :: _, _ => none
  | fuel + 1, b :: bs, r =>
    match readVarint (b :: bs) with
    | none => none
    | some (tag, rest) =>
      match tag % 8 with
      | 0 =>
        match readVarint rest with
        | none => none
        | some (v, rest2) => parseFieldsF fuel rest2 (setVarintField r (tag / 8) v)
      | 2 =>
        match readVarint rest with
        | none => none
        | some (len, rest2) =>
          if len ≤ rest2.length then
            parseFieldsF fuel (rest2.drop len) (setLenField r (tag / 8) (rest2.take len))
          else none
      | 1 => if 8 ≤ rest.length then parseFieldsF fuel (rest.drop 8) r else none
      | 5 => if 4 ≤ rest.length then parseFieldsF fuel (rest.drop 4) r else none
      | _ => none

/-- `proto.Unmarshal` for `pb.BlockInfo` (the Go implementation resets the
destination message before decoding, hence the `defaultBlockInfo` start).
Each parsed field consumes at least one byte, so the input length bounds the
number of fields and is a sufficient fuel. -/
def protoUnmarshal (bytes : List Nat) : Option BlockInfo :=
  parseFieldsF bytes.length bytes defaultBlockInfo

/-! ## Store-engine collaborator model

Modelled from the spec: the storage-engine interface (`DB` / `Batch`,
implemented by `NewLDB` outside the provided sources) exposes
`get(key) -> bytes | not-found`, `newBatch()`, `Batch.put`, `Batch.dump()`,
`Batch.load(bytes)`, and `Batch.write()` (durable on success).  A store
instance is identified by its path; a `World` maps store identities to
key-value contents, plus the set of stores whose durable writes currently
fail (modelling `UnderlyingStoreFailure`). -/

inductive Err
  | notFound
  | noMetaDB
  | metaDBAlreadyRegistered
  | engineFail
  | corruptBatch
deriving DecidableEq

deriving instance DecidableEq for Except

abbrev Store := List (Bytes × Bytes)

structure World where
  stores : List (String × Store)
  failing : List String
deriving DecidableEq

/-- Set a key in an association list (replace the first binding or append). -/
def alSet {α β : Type} [DecidableEq α] (k : α) (v : β) : List (α × β) → List (α × β)
  | [] => [(k, v)]
  | (k', v') :: rest => if k' = k then (k, v) :: rest else (k', v') :: alSet k v rest

def getStore (w : World) (ref : String) : Store :=
  (List.lookup ref w.stores).getD []

/-- `db.Get(key)`: `none` models `leveldb.ErrNotFound`. -/
def storeGet (w : World) (ref : String) (key : Bytes) : Option Bytes :=
  List.lookup key (getStore w ref)

/-- An engine batch: the store it was created from and its pending puts. -/
structure Batch where
  target : String
  ops : List (Bytes × Bytes)
deriving DecidableEq

def newBatch (ref : String) : Batch := ⟨ref, []⟩

/-- Chunk framing used by the modelled `Batch.Dump`: each byte string is
written as its length followed by its bytes. -/
def encodeChunk (l : Bytes) : List Nat := l.length :: l

/-- `Batch.Dump`: an opaque serialization of the pending operations. -/
def dumpOps : List (Bytes × Bytes) → List Nat
  | [] => []
  | (k, v) :: rest => encodeChunk k ++ encodeChunk v ++ dumpOps rest

/-- Fuel-indexed decoder for `dumpOps`. -/
def decodeOpsF : Nat → List Nat → Option (List (Bytes × Bytes))
  | _, [] => some []
  | 0, _ :: _ => none
  | fuel + 1, n :: rest =>
    if n ≤ rest.length then
      match rest.drop n with
      | [] => none
      | m :: rest2 =>
        if m ≤ rest2.length then
          match decodeOpsF fuel (rest2.drop m) with
          | some ops => some ((rest.take n, rest2.take m) :: ops)
          | none => none
        else none
    else none

/-- `Batch.Load`: parse a dump back into operations (`none` = load error). -/
def decodeOps (bytes : List Nat) : Option (List (Bytes × Bytes)) :=
  decodeOpsF bytes.length bytes

/-- `Batch.Load(data)` into an existing batch replaces its pending ops. -/
def batchLoad (b : Batch) (data : List Nat) : Option Batch :=
  match decodeOps data with
  | some ops => some { b with ops := ops }
  | none => none

def applyOps (s : Store) : List (Bytes × Bytes) → Store
  | [] => s
  | (k, v) :: rest => applyOps (alSet k v s) rest

/-- `Batch.Write()`: durably apply the pending puts to the target store, or
fail when the target store's writes are failing. -/
def batchWrite (b : Batch) (w : World) : Except Err World :=
  if b.target ∈ w.failing then .error .engineFail
  else .ok { w with stores := alSet b.target (applyOps (getStore w b.target) b.ops) w.stores }

/-! ## The `DBPool` registry (db_pool.go) -/

/-- `dbWrap`: one registered store handle.  `db = none` models a nil `DB`
interface value (as in the zero value of `dbWrap`). -/
structure DBWrap where
  id : Int
  db : Option String
  path : String
  dbType : String
  isMeta : Bool
deriving DecidableEq

/-- The zero value of `dbWrap`, produced by a Go map lookup at a missing key. -/
def zeroWrap : DBWrap := ⟨0, none, "", "", false⟩

/-- `math.MinInt32`, the sentinel for "no metadata store designated". -/
def minInt32 : Int := -2147483648

structure DBPool where
  dbs : List (Int × DBWrap)
  metaDBID : Int
deriving DecidableEq

/-- `NewDBPool()`. -/
def NewDBPool : DBPool := ⟨[], minInt32⟩

/-- Go map insertion: replace the binding at the key, or add one. -/
def mapInsert (m : List (Int × DBWrap)) (k : Int) (v : DBWrap) : List (Int × DBWrap) :=
  alSet k v m

/-- `(p *DBPool).Register(id, path, dbType, db, isMetaDB)`.  The handle is
inserted first; then, if `isMetaDB` holds while a metadata store is already
designated, the call panics (`none`).  Otherwise the metadata designation is
updated when `isMetaDB` holds. -/
def Register (p : DBPool) (id : Int) (path dbType : String) (db : Option String)
    (isMetaDB : Bool) : Option DBPool :=
  let p1 : DBPool := { p with dbs := mapInsert p.dbs id ⟨id, db, path, dbType, isMetaDB⟩ }
  if isMetaDB ∧ p.metaDBID ≠ minInt32 then none
  else if isMetaDB then some { p1 with metaDBID := id } else some p1

/-- `pb.DBInfo`: a store descriptor. -/
structure DBInfo where
  id : Int
  dbType : String
  dbPath : String
  isMeta : Bool
deriving DecidableEq

/-- `(p *DBPool).Open(dbInfo)`.  Returns the updated pool and the returned
error (`none` = nil).  `NewLDB` is modelled from the spec as successfully
opening the store instance at the descriptor's path. -/
def Open (p : DBPool) (info : DBInfo) : DBPool × Option Err :=
  if (List.lookup info.id p.dbs).isSome then (p, none)
  else if info.dbType = "leveldb" then
    if p.dbs.any (fun kw => kw.2.path = info.dbPath) then (p, none)
    else
      let wrap : DBWrap := ⟨info.id, some info.dbPath, info.dbPath, info.dbType, info.isMeta⟩
      let p1 : DBPool := { p with dbs := mapInsert p.dbs info.id wrap }
      if info.isMeta ∧ p.metaDBID ≠ minInt32 then (p1, some .metaDBAlreadyRegistered)
      else if info.isMeta then ({ p1 with metaDBID := info.id }, none)
      else (p1, none)
  else (p, none)

/-- `(p *DBPool).GetDB(id)`: the stored handle's `db` field, or
`leveldb.ErrNotFound`. -/
def GetDB (p : DBPool) (id : Int) : Except Err (Option String) :=
  match List.lookup id p.dbs with
  | none => .error .notFound
  | some w => .ok w.db

/-- Result of a read-style pool operation: a value, a returned error, or a
runtime panic (nil-interface method call). -/
inductive RRes (α : Type)
  | ok (a : α)
  | err (e : Err)
  | crash
deriving DecidableEq

/-- Result of a write-style pool operation, carrying the world as mutated so
far (durable writes survive an error return or a panic). -/
inductive WRes
  | ok (w : World)
  | err (e : Err) (w : World)
  | crash (w : World)
deriving DecidableEq

/-- The fixed checkpoint key `LastBlockInfo = "rpl_last_bk"`. -/
def lastBlockInfo : Bytes := (String.toList "rpl_last_bk").map Char.toNat

/-- The sentinel checkpoint `{BlockNum: -1, MsgOffset: -1}` constructed by
`GetBlockInfo`. -/
def sentinelBlockInfo : BlockInfo := ⟨[], [], -1, [], -1, 0, 0⟩

/-- `(p *DBPool).GetBlockInfo()`.  Faithful to the Go control flow:
no-metadata error; `p.dbs[p.metaDBID]` without an ok-check (zero value on a
missing key, whose nil `db` would crash); absent key or empty value yields
the sentinel record; a deserialization failure returns `nil, nil`, modelled
as `.ok none`.  (The modelled engine `Get` has no failure mode other than
not-found, so the `err != ErrNotFound` branch of the Go code is not
represented.) -/
def GetBlockInfo (p : DBPool) (w : World) : RRes (Option BlockInfo) :=
  if p.metaDBID = minInt32 then .err .noMetaDB
  else
    let wrap := (List.lookup p.metaDBID p.dbs).getD zeroWrap
    match wrap.db with
    | none => .crash
    | some ref =>
      match storeGet w ref lastBlockInfo with
      | none => .ok (some sentinelBlockInfo)
      | some buf =>
        if buf.length = 0 then .ok (some sentinelBlockInfo)
        else
          match protoUnmarshal buf with
          | none => .ok none
          | some h => .ok (some h)

/-- `(p *DBPool).WriteBlockInfo(header)`: marshal the record (for
`pb.BlockInfo`, `proto.Marshal` itself cannot fail), create a batch on the
metadata store, put the single key, and write it durably. -/
def WriteBlockInfo (p : DBPool) (w : World) (header : BlockInfo) : WRes :=
  if p.metaDBID = minInt32 then .err .noMetaDB w
  else
    let buf := protoMarshal header
    let wrap := (List.lookup p.metaDBID p.dbs).getD zeroWrap
    match wrap.db with
    | none => .crash w
    | some ref =>
      let b : Batch := ⟨ref, [(lastBlockInfo, buf)]⟩
      match batchWrite b w with
      | .error e => .err e w
      | .ok w1 => .ok w1

/-- `BatchWithID`: an in-memory batch addressed to a store identifier. -/
structure BatchWithID where
  id : Int
  b : Batch
deriving DecidableEq

/-- `pb.BatchItem`: a wire batch item. -/
structure BatchItem where
  id : Int
  data : Bytes
deriving DecidableEq

/-- `(p *DBPool).Marshal(batchs)`: serialize every batch to an
independently-owned byte slice (the Go code's defensive copy is identity in
this functional model), in input order.  The Go function's error result is
always nil. -/
def Marshal (batchs : List BatchWithID) : List BatchItem :=
  batchs.map fun it => ⟨it.id, dumpOps it.b.ops⟩

/-- `(p *DBPool).WriteBatchs(batchs)`: write each batch in input order,
returning the first failing write's error. -/
def WriteBatchs (w : World) : List BatchWithID → WRes
  | [] => .ok w
  | item :: rest =>
    match batchWrite item.b w with
    | .error e => .err e w
    | .ok w1 => WriteBatchs w1 rest

/-- One iteration of the `WriteBatchItems` loop: `db := p.dbs[item.Id]`
(zero value when the id is unregistered, so a nil `db` interface),
`db.db.NewBatch()` (crashes on the nil interface), `batch.Load(item.Data)`,
`batch.Write()`; a load or write error is returned with the world
unchanged. -/
def applyWireItem (p : DBPool) (w : World) (item : BatchItem) : WRes :=
  let wrap := (List.lookup item.id p.dbs).getD zeroWrap
  match wrap.db with
  | none => .crash w
  | some ref =>
    match batchLoad (newBatch ref) item.data with
    | none => .err .corruptBatch w
    | some b =>
      match batchWrite b w with
      | .error e => .err e w
      | .ok w1 => .ok w1

/-- `(p *DBPool).WriteBatchItems(items)`: run the loop body on each wire
item in input order; the first error or panic stops the loop. -/
def WriteBatchItems (p : DBPool) (w : World) : List BatchItem → WRes
  | [] => .ok w
  | item :: rest =>
    match applyWireItem p w item with
    | .ok w1 => WriteBatchItems p w1 rest
    | .err e w1 => .err e w1
    | .crash w1 => .crash w1

/-- `true` exactly when a write-style operation returned an error (as
opposed to succeeding or panicking). -/
def returnsErr : WRes → Bool
  | .err _ _ => true
  | _ => false

/-! ## Registry call sequences (for the metadata-designation invariant) -/

/-- One mutating registry call. -/
inductive Call
  | register (id : Int) (path dbType : String) (db : Option String) (isMeta : Bool)
  | openCall (info : DBInfo)
deriving DecidableEq

/-- The store identifier a call addresses. -/
def callId : Call → Int
  | .register id _ _ _ _ => id
  | .openCall info => info.id

/-- One step of a clean call sequence: the call's identifier is neither the
sentinel `math.MinInt32` nor already present in the registry, and the call
neither panics nor returns an error; otherwise the trace is discarded. -/
def cleanStep (p : DBPool) : Call → Option DBPool
  | .register id path dbType db isMeta =>
    if id = minInt32 ∨ (List.lookup id p.dbs).isSome then none
    else Register p id path dbType db isMeta
  | .openCall info =>
    if info.id = minInt32 ∨ (List.lookup info.id p.dbs).isSome then none
    else
      match Open p info with
      | (p1, none) => some p1
      | (_, some _) => none

def runCleanFrom (p : DBPool) : List Call → Option DBPool
  | [] => some p
  | c :: cs =>
    match cleanStep p c with
    | none => none
    | some p1 => runCleanFrom p1 cs

/-- Run a clean call sequence from the freshly constructed pool. -/
def runClean (cs : List Call) : Option DBPool :=
  runCleanFrom NewDBPool cs

/-- The claimed metadata invariant: at most one stored handle has the
metadata flag set, and the designated metadata identifier, when not the
sentinel, maps to a handle whose metadata flag is set. -/
def MetaInv (p : DBPool) : Prop :=
  (p.dbs.filter fun kw => kw.2.isMeta).length ≤ 1 ∧
  (p.metaDBID ≠ minInt32 →
    (List.lookup p.metaDBID p.dbs).map (fun w => w.isMeta) = some true)

instance (p : DBPool) : Decidable (MetaInv p) := by
  unfold MetaInv
  infer_instance

/-- Strengthened inductive invariant: keys are distinct, and either no
metadata store is designated and no handle is flagged, or the designated
identifier maps to a flagged handle and every flagged handle sits at that
identifier. -/
def StrongInv (p : DBPool) : Prop :=
  (p.dbs.map Prod.fst).Nodup ∧
  ((p.metaDBID = minInt32 ∧ ∀ kw ∈ p.dbs, kw.2.isMeta = false) ∨
   (p.metaDBID ≠ minInt32 ∧
    (∃ w, List.lookup p.metaDBID p.dbs = some w ∧ w.isMeta = true) ∧
    ∀ kw ∈ p.dbs, kw.2.isMeta = true → kw.1 = p.metaDBID))

/-- Result of replaying a list of decoded fields into a message. -/
def applyFields (r : BlockInfo) : List PField → BlockInfo
  | [] => r
  | .fVarint n v :: fs => applyFields (setVarintField r n v) fs
  | .fLen n d :: fs => applyFields (setLenField r n d) fs

/-- A field whose tag fits in one varint byte (all `BlockInfo` fields do). -/
def fieldOk : PField → Prop
  | .fVarint num _ => num * 8 < 128
  | .fLen num _ => num * 8 + 2 < 128

/-! ## Helper lemmas: lists, association lists -/

theorem take_append_self {α : Type} (a b : List α) : (a ++ b).take a.length = a := by
  induction a with
  | nil => simp
  | cons x xs ih => simp [ih]

theorem drop_append_self {α : Type} (a b : List α) : (a ++ b).drop a.length = b := by
  induction a with
  | nil => simp
  | cons x xs ih => simp [ih]

theorem alSet_lookup {α β : Type} [DecidableEq α] (k : α) (v : β) (l : List (α × β)) :
    List.lookup k (alSet k v l) = some v := by
  induction l with
  | nil => simp [alSet, List.lookup]
  | cons p rest ih =>
    by_cases h : p.1 = k
    · simp [alSet, h, List.lookup]
    · simp only [alSet]
      rw [if_neg h]
      simpa [List.lookup, beq_false_of_ne (fun he => h he.symm)] using ih

theorem alSet_lookup_bytes (k v : Bytes) (l : List (Bytes × Bytes)) :
    List.lookup k (alSet k v l) = some v := by
  induction l with
  | nil => simp [alSet, List.lookup]
  | cons p rest ih =>
    by_cases h : p.1 = k
    · simp [alSet, h, List.lookup]
    · simp only [alSet]
      rw [if_neg h]
      simpa [List.lookup, beq_false_of_ne (fun he => h he.symm)] using ih

theorem alSet_lookup_ne {α β : Type} [DecidableEq α] (k k' : α) (v : β) (l : List (α × β))
    (h : k' ≠ k) : List.lookup k' (alSet k v l) = List.lookup k' l := by
  induction l with
  | nil => simp [alSet, List.lookup, beq_false_of_ne h]
  | cons p rest ih =>
    by_cases hp : p.1 = k
    · subst hp
      simp [alSet, List.lookup, beq_false_of_ne h]
    · simp only [alSet]
      rw [if_neg hp]
      by_cases hk : k' = p.1
      · subst hk
        simp [List.lookup]
      · simp [List.lookup, beq_false_of_ne hk, ih]

theorem lookup_mem_keys {α β : Type} [DecidableEq α] (k : α) (v : β) (l : List (α × β))
    (h : List.lookup k l = some v) : k ∈ l.map Prod.fst := by
  induction l with
  | nil => simp [List.lookup] at h
  | cons p rest ih =>
    by_cases hk : k = p.1
    · simp [hk]
    · simp only [List.lookup, beq_false_of_ne hk] at h
      simp [ih h]

theorem alSet_fresh {α β : Type} [DecidableEq α] (k : α) (v : β) (l : List (α × β))
    (h : k ∉ l.map Prod.fst) : alSet k v l = l ++ [(k, v)] := by
  induction l with
  | nil => simp [alSet]
  | cons p rest ih =>
    obtain ⟨a, b⟩ := p
    simp only [List.map_cons, List.mem_cons] at h
    push_neg at h
    simp only [alSet]
    rw [if_neg (fun he => h.1 he.symm), ih h.2]
    simp

theorem lookup_append_left {α β : Type} [DecidableEq α] (k : α) (v : β)
    (l l2 : List (α × β)) (h : List.lookup k l = some v) :
    List.lookup k (l ++ l2) = some v := by
  induction l with
  | nil => simp [List.lookup] at h
  | cons p rest ih =>
    by_cases hk : k = p.1
    · subst hk
      simp only [List.lookup, beq_self_eq_true] at h ⊢
      simpa using h
    · simp only [List.cons_append, List.lookup, beq_false_of_ne hk] at h ⊢
      exact ih h

/-! ## Varint and dump/load roundtrips -/

theorem varint_ne_nil (n : Nat) : varint n ≠ [] := by
  rw [varint]
  split <;> simp

theorem readVarintF_varint (n : Nat) : ∀ f rest, (varint n).length ≤ f →
    readVarintF f (varint n ++ rest) = some (n, rest) := by
  induction n using Nat.strong_induction_on with
  | _ n ih =>
    intro f rest hf
    by_cases h : n < 128
    · rw [varint, dif_pos h] at hf ⊢
      match f, hf with
      | f' + 1, _ => simp [readVarintF, h]
    · rw [varint, dif_neg h] at hf ⊢
      match f, hf with
      | f' + 1, hf =>
        simp only [List.length_cons, Nat.add_le_add_iff_right] at hf
        have hd : n / 128 < n := Nat.div_lt_self (by omega) (by omega)
        simp only [List.cons_append, readVarintF, if_neg (by omega : ¬ n % 128 + 128 < 128)]
        rw [List.append_eq, ih (n / 128) hd f' rest hf]
        simp only [Option.some.injEq, Prod.mk.injEq, and_true]
        omega

theorem readVarint_varint (n : Nat) (rest : List Nat) :
    readVarint (varint n ++ rest) = some (n, rest) := by
  apply readVarintF_varint
  simp [List.length_append]

theorem decodeOpsF_dumpOps (ops : List (Bytes × Bytes)) : ∀ f, ops.length ≤ f →
    decodeOpsF f (dumpOps ops) = some ops := by
  induction ops with
  | nil => intro f _; simp [dumpOps, decodeOpsF]
  | cons kv rest ih =>
    intro f hf
    obtain ⟨k, v⟩ := kv
    simp only [List.length_cons] at hf
    match f, hf with
    | f' + 1, hf =>
      have hrest : rest.length ≤ f' := by omega
      have hshape : dumpOps ((k, v) :: rest) =
          k.length :: (k ++ (v.length :: (v ++ dumpOps rest))) := by
        simp [dumpOps, encodeChunk]
      rw [hshape]
      simp [decodeOpsF, take_append_self, drop_append_self, List.length_append, ih f' hrest]

theorem decodeOps_dumpOps (ops : List (Bytes × Bytes)) :
    decodeOps (dumpOps ops) = some ops := by
  apply decodeOpsF_dumpOps
  induction ops with
  | nil => simp [dumpOps]
  | cons kv rest ih =>
    obtain ⟨k, v⟩ := kv
    simp only [dumpOps, encodeChunk, List.length_cons, List.length_append, List.length_cons]
    omega

theorem batchLoad_dump (ref : String) (ops : List (Bytes × Bytes)) :
    batchLoad (newBatch ref) (dumpOps ops) = some ⟨ref, ops⟩ := by
  simp [batchLoad, decodeOps_dumpOps, newBatch]

/-! ## Proto marshal/unmarshal roundtrip -/

theorem int64of_toUint64 (i : Int) (h1 : -(2 ^ 63) ≤ i) (h2 : i < 2 ^ 63) :
    int64of (toUint64 i) = i := by
  simp only [int64of, toUint64]
  split_ifs <;> omega

theorem int32of_toUint64 (i : Int) (h1 : -(2 ^ 31) ≤ i) (h2 : i < 2 ^ 31) :
    int32of (toUint64 i) = i := by
  simp only [int32of, toUint64]
  split_ifs <;> omega

theorem applyFields_append (r : BlockInfo) (fs gs : List PField) :
    applyFields r (fs ++ gs) = applyFields (applyFields r fs) gs := by
  induction fs generalizing r with
  | nil => simp [applyFields]
  | cons f fs ih => cases f <;> simp [applyFields, ih]

theorem emitField_ne_nil (f : PField) : emitField f ≠ [] := by
  cases f with
  | fVarint num v =>
    simp only [emitField]
    intro h
    exact varint_ne_nil _ (List.append_eq_nil.mp h).1
  | fLen num d =>
    simp only [emitField]
    intro h
    exact varint_ne_nil _ (List.append_eq_nil.mp (List.append_eq_nil.mp h).1).1

theorem length_le_emitAll (fs : List PField) : fs.length ≤ (emitAll fs).length := by
  induction fs with
  | nil => simp [emitAll]
  | cons f fs ih =>
    simp only [emitAll, List.length_cons, List.length_append]
    have : 1 ≤ (emitField f).length := by
      cases h : emitField f with
      | nil => exact absurd h (emitField_ne_nil f)
      | cons a l => simp
    omega

theorem parseFieldsF_emitAll (fs : List PField) : ∀ F r, fs.length ≤ F →
    (∀ f ∈ fs, fieldOk f) →
    parseFieldsF F (emitAll fs) r = some (applyFields r fs) := by
  induction fs with
  | nil => intro F r _ _; simp [emitAll, parseFieldsF, applyFields]
  | cons f fs ih =>
    intro F r hF hok
    have hokf : fieldOk f := hok f (by simp)
    have hoks : ∀ g ∈ fs, fieldOk g := fun g hg => hok g (by simp [hg])
    match F, hF with
    | F' + 1, hF =>
      have hFs : fs.length ≤ F' := by simpa using hF
      cases f with
      | fVarint num v =>
        have htag : num * 8 < 128 := hokf
        have hv : varint (num * 8) = [num * 8] := by
          rw [varint]; rw [dif_pos htag]
        have h1 : emitAll (.fVarint num v :: fs) =
            num * 8 :: (varint v ++ emitAll fs) := by
          simp [emitAll, emitField, hv]
        have h2 : readVarint (num * 8 :: (varint v ++ emitAll fs)) =
            some (num * 8, varint v ++ emitAll fs) := by
          have hsh : num * 8 :: (varint v ++ emitAll fs) =
              varint (num * 8) ++ (varint v ++ emitAll fs) := by
            rw [hv]; rfl
          rw [hsh, readVarint_varint]
        have hmod : (num * 8) % 8 = 0 := by omega
        have hdiv : (num * 8) / 8 = num := by omega
        rw [h1]
        simp only [parseFieldsF, h2, hmod, hdiv, readVarint_varint]
        rw [ih F' (setVarintField r num v) hFs hoks]
        simp [applyFields]
      | fLen num d =>
        have htag : num * 8 + 2 < 128 := hokf
        have hv : varint (num * 8 + 2) = [num * 8 + 2] := by
          rw [varint]; rw [dif_pos htag]
        have h1 : emitAll (.fLen num d :: fs) =
            (num * 8 + 2) :: (varint d.length ++ (d ++ emitAll fs)) := by
          simp [emitAll, emitField, hv]
        have h2 : readVarint ((num * 8 + 2) :: (varint d.length ++ (d ++ emitAll fs))) =
            some (num * 8 + 2, varint d.length ++ (d ++ emitAll fs)) := by
          have hsh : (num * 8 + 2) :: (varint d.length ++ (d ++ emitAll fs)) =
              varint (num * 8 + 2) ++ (varint d.length ++ (d ++ emitAll fs)) := by
            rw [hv]; rfl
          rw [hsh, readVarint_varint]
        have hmod : (num * 8 + 2) % 8 = 2 := by omega
        have hdiv : (num * 8 + 2) / 8 = num := by omega
        rw [h1]
        simp only [parseFieldsF, h2, hmod, hdiv, readVarint_varint]
        rw [if_pos (by simp [List.length_append])]
        rw [take_append_self, drop_append_self]
        rw [ih F' (setLenField r num d) hFs hoks]
        simp [applyFields]

theorem mem_ite_nil {P : Prop} [Decidable P] {f x : PField}
    (h : f ∈ (if P then ([] : List PField) else [x])) : f = x := by
  split at h <;> simp_all

theorem fieldList_ok (r : BlockInfo) : ∀ f ∈ fieldList r, fieldOk f := by
  intro f hf
  simp only [fieldList, List.mem_append] at hf
  rcases hf with ((((((h | h) | h) | h) | h) | h) | h) <;>
    rw [mem_ite_nil h] <;> simp [fieldOk]

theorem applyFields_fieldList (r : BlockInfo)
    (h3a : -(2 ^ 63) ≤ r.blockNum) (h3b : r.blockNum < 2 ^ 63)
    (h5a : -(2 ^ 63) ≤ r.msgOffset) (h5b : r.msgOffset < 2 ^ 63)
    (h6a : -(2 ^ 31) ≤ r.blockType) (h6b : r.blockType < 2 ^ 31)
    (h7a : -(2 ^ 63) ≤ r.blockSize) (h7b : r.blockSize < 2 ^ 63) :
    applyFields defaultBlockInfo (fieldList r) = r := by
  obtain ⟨c, e, bn, bh, mo, bt, bs⟩ := r
  simp only at h3a h3b h5a h5b h6a h6b h7a h7b
  simp only [fieldList, applyFields_append]
  have s1 : applyFields defaultBlockInfo (if c = [] then [] else [.fLen 1 c]) =
      ⟨c, [], 0, [], 0, 0, 0⟩ := by
    by_cases hc : c = [] <;> simp [hc, applyFields, setLenField, defaultBlockInfo]
  have s2 : applyFields ⟨c, [], 0, [], 0, 0, 0⟩ (if e = [] then [] else [.fLen 2 e]) =
      ⟨c, e, 0, [], 0, 0, 0⟩ := by
    by_cases he : e = [] <;> simp [he, applyFields, setLenField]
  have s3 : applyFields ⟨c, e, 0, [], 0, 0, 0⟩
      (if bn = 0 then [] else [.fVarint 3 (toUint64 bn)]) = ⟨c, e, bn, [], 0, 0, 0⟩ := by
    by_cases hb : bn = 0
    · simp [hb, applyFields]
    · simp [hb, applyFields, setVarintField, int64of_toUint64 bn h3a h3b]
  have s4 : applyFields ⟨c, e, bn, [], 0, 0, 0⟩
      (if bh = [] then [] else [.fLen 4 bh]) = ⟨c, e, bn, bh, 0, 0, 0⟩ := by
    by_cases hh : bh = [] <;> simp [hh, applyFields, setLenField]
  have s5 : applyFields ⟨c, e, bn, bh, 0, 0, 0⟩
      (if mo = 0 then [] else [.fVarint 5 (toUint64 mo)]) = ⟨c, e, bn, bh, mo, 0, 0⟩ := by
    by_cases hm : mo = 0
    · simp [hm, applyFields]
    · simp [hm, applyFields, setVarintField, int64of_toUint64 mo h5a h5b]
  have s6 : applyFields ⟨c, e, bn, bh, mo, 0, 0⟩
      (if bt = 0 then [] else [.fVarint 6 (toUint64 bt)]) = ⟨c, e, bn, bh, mo, bt, 0⟩ := by
    by_cases ht : bt = 0
    · simp [ht, applyFields]
    · simp [ht, applyFields, setVarintField, int32of_toUint64 bt h6a h6b]
  have s7 : applyFields ⟨c, e, bn, bh, mo, bt, 0⟩
      (if bs = 0 then [] else [.fVarint 7 (toUint64 bs)]) = ⟨c, e, bn, bh, mo, bt, bs⟩ := by
    by_cases hs : bs = 0
    · simp [hs, applyFields]
    · simp [hs, applyFields, setVarintField, int64of_toUint64 bs h7a h7b]
  rw [s1, s2, s3, s4, s5, s6, s7]

/-- Round trip of the modelled `proto.Marshal` / `proto.Unmarshal` for
records whose integer fields are in the ranges of Go's `int64` / `int32`. -/
theorem protoUnmarshal_protoMarshal (r : BlockInfo)
    (h3a : -(2 ^ 63) ≤ r.blockNum) (h3b : r.blockNum < 2 ^ 63)
    (h5a : -(2 ^ 63) ≤ r.msgOffset) (h5b : r.msgOffset < 2 ^ 63)
    (h6a : -(2 ^ 31) ≤ r.blockType) (h6b : r.blockType < 2 ^ 31)
    (h7a : -(2 ^ 63) ≤ r.blockSize) (h7b : r.blockSize < 2 ^ 63) :
    protoUnmarshal (protoMarshal r) = some r := by
  unfold protoUnmarshal protoMarshal
  rw [parseFieldsF_emitAll (fieldList r) (emitAll (fieldList r)).length defaultBlockInfo
    (length_le_emitAll (fieldList r)) (fieldList_ok r)]
  rw [applyFields_fieldList r h3a h3b h5a h5b h6a h6b h7a h7b]

/-- `proto.Marshal` yields the empty byte string only for the all-default
record. -/
theorem protoMarshal_eq_nil (r : BlockInfo) (h : protoMarshal r = []) :
    r = defaultBlockInfo := by
  obtain ⟨c, e, bn, bh, mo, bt, bs⟩ := r
  unfold protoMarshal fieldList at h
  by_cases hc : c = [] <;> by_cases he : e = [] <;> by_cases hb : bn = 0 <;>
    by_cases hh : bh = [] <;> by_cases hm : mo = 0 <;> by_cases ht : bt = 0 <;>
    by_cases hs : bs = 0 <;>
    simp_all [emitAll, emitField, defaultBlockInfo] <;>
    exact absurd h.1 (varint_ne_nil _)

/-! ## Sequencing lemmas for batch application -/

theorem WriteBatchs_append_ok : ∀ (pre : List BatchWithID) (w w' : World)
    (rest : List BatchWithID), WriteBatchs w pre = .ok w' →
    WriteBatchs w (pre ++ rest) = WriteBatchs w' rest := by
  intro pre
  induction pre with
  | nil =>
    intro w w' rest h
    simp only [WriteBatchs, WRes.ok.injEq] at h
    subst h
    simp
  | cons item pre ih =>
    intro w w' rest h
    simp only [WriteBatchs, List.cons_append] at h ⊢
    cases hb : batchWrite item.b w with
    | error e => rw [hb] at h; simp at h
    | ok w1 => rw [hb] at h; exact ih w1 w' rest h

theorem WriteBatchItems_append_ok : ∀ (pre : List BatchItem) (p : DBPool) (w w' : World)
    (rest : List BatchItem), WriteBatchItems p w pre = .ok w' →
    WriteBatchItems p w (pre ++ rest) = WriteBatchItems p w' rest := by
  intro pre
  induction pre with
  | nil =>
    intro p w w' rest h
    simp only [WriteBatchItems, WRes.ok.injEq] at h
    subst h
    simp
  | cons item pre ih =>
    intro p w w' rest h
    simp only [WriteBatchItems, List.cons_append] at h ⊢
    cases ha : applyWireItem p w item with
    | ok w1 => rw [ha] at h; exact ih p w1 w' rest h
    | err e w1 => rw [ha] at h; simp at h
    | crash w1 => rw [ha] at h; simp at h

/-! ## Claim theorems -/

/-- C6: `WriteBatchs` (applyLocalBatches) writes the batches in input order;
at the first write that fails it returns that error, every batch before the
failing one has been committed (the error carries exactly the world produced
by the preceding batches), and no batch at or after the failing one is
written. -/
theorem WriteBatchs_stops_at_first_failure (w w' : World) (pre post : List BatchWithID)
    (bad : BatchWithID) (e : Err)
    (hpre : WriteBatchs w pre = .ok w')
    (hbad : batchWrite bad.b w' = .error e) :
    WriteBatchs w (pre ++ bad :: post) = .err e w' := by
  rw [WriteBatchs_append_ok pre w w' (bad :: post) hpre]
  simp only [WriteBatchs]
  rw [hbad]

/-- Witness for C6 at a concrete input: one successful batch on store s1,
then a batch on failing store s2, then a batch that is never attempted. -/
theorem WriteBatchs_stops_witness :
    WriteBatchs ⟨[("s1", []), ("s2", [])], ["s2"]⟩ [⟨1, ⟨"s1", [([0], [1])]⟩⟩] =
      .ok ⟨[("s1", [([0], [1])]), ("s2", [])], ["s2"]⟩ ∧
    WriteBatchs ⟨[("s1", []), ("s2", [])], ["s2"]⟩
      ([⟨1, ⟨"s1", [([0], [1])]⟩⟩] ++ ⟨2, ⟨"s2", [([9], [9])]⟩⟩ :: [⟨1, ⟨"s1", [([2], [3])]⟩⟩]) =
      .err .engineFail ⟨[("s1", [([0], [1])]), ("s2", [])], ["s2"]⟩ :=
  ⟨by decide,
   WriteBatchs_stops_at_first_failure _ _ _ _ _ _ (by decide) (by decide)⟩

/-- C1 counterexample: applying three wire items where the second targets
the unregistered identifier 99 does not return a not-found error — the Go
code reads the zero `dbWrap` out of the map and calls `NewBatch` on its nil
`db` interface, which panics.  Item 1's mutation is durably present in the
crash state, and item 3 is never attempted. -/
theorem WriteBatchItems_unregistered_counterexample :
    WriteBatchItems ⟨[(1, ⟨1, some "s1", "a", "leveldb", false⟩)], minInt32⟩
      ⟨[("s1", [])], []⟩ [⟨1, [1, 0, 1, 1]⟩, ⟨99, []⟩, ⟨1, [1, 2, 1, 3]⟩] =
      .crash ⟨[("s1", [([0], [1])])], []⟩ ∧
    returnsErr (WriteBatchItems ⟨[(1, ⟨1, some "s1", "a", "leveldb", false⟩)], minInt32⟩
      ⟨[("s1", [])], []⟩ [⟨1, [1, 0, 1, 1]⟩, ⟨99, []⟩, ⟨1, [1, 2, 1, 3]⟩]) = false := by
  decide

/-- C1 (amended): `WriteBatchItems` (applyWireItems) processes items in
input order; when an item targets a store identifier not registered in the
pool, the call panics at that item (it does not return a not-found error);
every item before it has been durably written (the crash state is exactly
the world produced by the preceding items) and no item at or after it is
attempted. -/
theorem WriteBatchItems_unregistered_crash (p : DBPool) (w w' : World)
    (pre post : List BatchItem) (bad : BatchItem)
    (hpre : WriteBatchItems p w pre = .ok w')
    (hbad : List.lookup bad.id p.dbs = none) :
    WriteBatchItems p w (pre ++ bad :: post) = .crash w' := by
  rw [WriteBatchItems_append_ok pre p w w' (bad :: post) hpre]
  have ha : applyWireItem p w' bad = .crash w' := by
    simp [applyWireItem, hbad, zeroWrap]
  simp [WriteBatchItems, ha]

/-- Witness for C1's amended theorem at the counterexample input. -/
theorem WriteBatchItems_unregistered_crash_witness :
    WriteBatchItems ⟨[(1, ⟨1, some "s1", "a", "leveldb", false⟩)], minInt32⟩
      ⟨[("s1", [])], []⟩ [⟨1, [1, 0, 1, 1]⟩] = .ok ⟨[("s1", [([0], [1])])], []⟩ ∧
    WriteBatchItems ⟨[(1, ⟨1, some "s1", "a", "leveldb", false⟩)], minInt32⟩
      ⟨[("s1", [])], []⟩ ([⟨1, [1, 0, 1, 1]⟩] ++ ⟨99, []⟩ :: [⟨1, [1, 2, 1, 3]⟩]) =
      .crash ⟨[("s1", [([0], [1])])], []⟩ :=
  ⟨by decide,
   WriteBatchItems_unregistered_crash _ _ _ _ _ _ (by decide) (by decide)⟩

/-- C3: serializing an in-memory batch addressed to a store identifier
registered in the pool (`Marshal`, i.e. toWireItems) and applying the
resulting wire items (`WriteBatchItems`) produces exactly the same result —
the same store mutations, or the same error with the same world — as
applying the batch directly with `WriteBatchs` (applyLocalBatches).  The
modelled engine's `Batch.Load` provably inverts `Batch.Dump`
(`batchLoad_dump`). -/
theorem Marshal_WriteBatchItems_eq_WriteBatchs (p : DBPool) (w : World) (id : Int)
    (B : Batch) (wrap : DBWrap)
    (hl : List.lookup id p.dbs = some wrap) (hdb : wrap.db = some B.target) :
    WriteBatchItems p w (Marshal [⟨id, B⟩]) = WriteBatchs w [⟨id, B⟩] := by
  have ha : applyWireItem p w ⟨id, dumpOps B.ops⟩ =
      match batchWrite B w with
      | Except.error e => WRes.err e w
      | Except.ok w1 => WRes.ok w1 := by
    simp [applyWireItem, hl, hdb, batchLoad_dump]
  simp only [Marshal, List.map, WriteBatchItems, WriteBatchs, ha]
  cases hw : batchWrite B w <;> rfl

/-- Witness for C3 at a concrete input. -/
theorem Marshal_WriteBatchItems_eq_WriteBatchs_witness :
    List.lookup 1 (⟨[(1, ⟨1, some "s1", "a", "leveldb", false⟩)], minInt32⟩ : DBPool).dbs =
      some ⟨1, some "s1", "a", "leveldb", false⟩ ∧
    WriteBatchItems ⟨[(1, ⟨1, some "s1", "a", "leveldb", false⟩)], minInt32⟩
      ⟨[("s1", [])], []⟩ (Marshal [⟨1, ⟨"s1", [([5], [6])]⟩⟩]) =
    WriteBatchs ⟨[("s1", [])], []⟩ [⟨1, ⟨"s1", [([5], [6])]⟩⟩] :=
  ⟨by decide,
   Marshal_WriteBatchItems_eq_WriteBatchs _ _ 1 ⟨"s1", [([5], [6])]⟩
     ⟨1, some "s1", "a", "leveldb", false⟩ (by decide) (by decide)⟩

/-- C7: calling `Register` with the metadata flag set while a metadata
identifier is already designated (not the sentinel) panics — the call never
returns normally. -/
theorem Register_duplicate_meta_panics (p : DBPool) (id : Int) (path dbType : String)
    (db : Option String) (hm : p.metaDBID ≠ minInt32) :
    Register p id path dbType db true = none := by
  simp [Register, hm]

/-- Witness for C7 on a pool whose metadata identifier is 1. -/
theorem Register_duplicate_meta_panics_witness :
    (⟨[], 1⟩ : DBPool).metaDBID ≠ minInt32 ∧
    Register ⟨[], 1⟩ 2 "a" "leveldb" (some "s") true = none :=
  ⟨by decide, Register_duplicate_meta_panics ⟨[], 1⟩ 2 "a" "leveldb" (some "s") (by decide)⟩

/-- C8: `Open` on a leveldb descriptor whose identifier is unregistered but
whose path matches an already-registered handle returns success without
inserting a mapping, so a subsequent `GetDB` on that identifier returns the
not-found error. -/
theorem Open_path_match_drops_id (p : DBPool) (info : DBInfo)
    (h1 : List.lookup info.id p.dbs = none)
    (h2 : info.dbType = "leveldb")
    (h3 : p.dbs.any (fun kw => kw.2.path = info.dbPath) = true) :
    Open p info = (p, none) ∧ GetDB p info.id = .error .notFound := by
  constructor
  · simp [Open, h1, h2, h3]
  · simp [GetDB, h1]

/-- Witness for C8: id 2 is dropped because id 1 already owns path a. -/
theorem Open_path_match_drops_id_witness :
    Open ⟨[(1, ⟨1, some "a", "a", "leveldb", false⟩)], minInt32⟩ ⟨2, "leveldb", "a", false⟩ =
      (⟨[(1, ⟨1, some "a", "a", "leveldb", false⟩)], minInt32⟩, none) ∧
    GetDB ⟨[(1, ⟨1, some "a", "a", "leveldb", false⟩)], minInt32⟩ 2 = .error .notFound :=
  Open_path_match_drops_id _ _ (by decide) (by decide) (by decide)

/-- C9: when `Open` takes the duplicate-metadata error path, the new handle
has already been inserted before the error return: the returned pool maps
the descriptor's identifier to the freshly opened handle (so `GetDB`
succeeds on it), and the metadata designation is left unchanged. -/
theorem Open_duplicate_meta_error_still_registers (p : DBPool) (info : DBInfo)
    (h1 : List.lookup info.id p.dbs = none)
    (h2 : info.dbType = "leveldb")
    (h3 : p.dbs.any (fun kw => kw.2.path = info.dbPath) = false)
    (h4 : info.isMeta = true)
    (h5 : p.metaDBID ≠ minInt32) :
    Open p info =
      ({ dbs := mapInsert p.dbs info.id
           ⟨info.id, some info.dbPath, info.dbPath, info.dbType, info.isMeta⟩,
         metaDBID := p.metaDBID }, some .metaDBAlreadyRegistered) ∧
    GetDB (Open p info).1 info.id = .ok (some info.dbPath) ∧
    (Open p info).1.metaDBID = p.metaDBID := by
  have ho : Open p info =
      ({ dbs := mapInsert p.dbs info.id
           ⟨info.id, some info.dbPath, info.dbPath, info.dbType, info.isMeta⟩,
         metaDBID := p.metaDBID }, some .metaDBAlreadyRegistered) := by
    simp [Open, h1, h2, h3, h4, h5]
  refine ⟨ho, ?_, ?_⟩
  · rw [ho]
    simp [GetDB, mapInsert, alSet_lookup]
  · rw [ho]

/-- Witness for C9: opening metadata descriptor 2 while 1 is designated. -/
theorem Open_duplicate_meta_error_still_registers_witness :
    Open ⟨[(1, ⟨1, some "m", "m", "leveldb", true⟩)], 1⟩ ⟨2, "leveldb", "q", true⟩ =
      ({ dbs := mapInsert [(1, ⟨1, some "m", "m", "leveldb", true⟩)] 2
           ⟨2, some "q", "q", "leveldb", true⟩,
         metaDBID := 1 }, some .metaDBAlreadyRegistered) ∧
    GetDB (Open ⟨[(1, ⟨1, some "m", "m", "leveldb", true⟩)], 1⟩ ⟨2, "leveldb", "q", true⟩).1 2 =
      .ok (some "q") ∧
    (Open ⟨[(1, ⟨1, some "m", "m", "leveldb", true⟩)], 1⟩ ⟨2, "leveldb", "q", true⟩).1.metaDBID = 1 :=
  Open_duplicate_meta_error_still_registers _ _ (by decide) (by decide) (by decide)
    (by decide) (by decide)

/-- C10: `Open` on a descriptor whose engine-type tag is not "leveldb" and
whose identifier is unregistered returns nil without opening or inserting
anything, so the identifier stays unresolvable through `GetDB`. -/
theorem Open_non_leveldb_noop (p : DBPool) (info : DBInfo)
    (h1 : List.lookup info.id p.dbs = none)
    (h2 : info.dbType ≠ "leveldb") :
    Open p info = (p, none) ∧ GetDB p info.id = .error .notFound := by
  constructor
  · simp [Open, h1, h2]
  · simp [GetDB, h1]

/-- Witness for C10 on a "pebble" descriptor. -/
theorem Open_non_leveldb_noop_witness :
    Open ⟨[], minInt32⟩ ⟨7, "pebble", "x", false⟩ = (⟨[], minInt32⟩, none) ∧
    GetDB ⟨[], minInt32⟩ 7 = .error .notFound :=
  Open_non_leveldb_noop _ _ (by decide) (by decide)

/-- C4 counterexample: writing the all-default checkpoint record succeeds
(proto3 marshals it to the empty byte string), but the subsequent read
returns the `{-1, -1}` sentinel — not the record that was written — because
`GetBlockInfo` treats an empty stored value as "replication not yet
started". -/
theorem checkpoint_default_record_counterexample :
    WriteBlockInfo ⟨[(1, ⟨1, some "m", "a", "leveldb", true⟩)], 1⟩ ⟨[], []⟩
      defaultBlockInfo = .ok ⟨[("m", [(lastBlockInfo, [])])], []⟩ ∧
    GetBlockInfo ⟨[(1, ⟨1, some "m", "a", "leveldb", true⟩)], 1⟩
      ⟨[("m", [(lastBlockInfo, [])])], []⟩ = .ok (some sentinelBlockInfo) ∧
    sentinelBlockInfo ≠ defaultBlockInfo := by
  decide

/-- C4 (amended): with a metadata store designated (handle present, live,
and not failing): reading when the fixed key is absent returns the record
with block number -1 and message offset -1 and no error; and after a
successful `WriteBlockInfo` of a record whose integer fields are in Go's
`int64`/`int32` ranges and which is not the all-default record, a
subsequent `GetBlockInfo` returns exactly that record.  (For the
all-default record the read returns the sentinel instead, per the
counterexample.) -/
theorem checkpoint_read_write (p : DBPool) (w : World) (wrap : DBWrap) (ref : String)
    (r : BlockInfo)
    (hm : p.metaDBID ≠ minInt32)
    (hl : List.lookup p.metaDBID p.dbs = some wrap)
    (hdb : wrap.db = some ref)
    (hfail : ref ∉ w.failing)
    (h3a : -(2 ^ 63) ≤ r.blockNum) (h3b : r.blockNum < 2 ^ 63)
    (h5a : -(2 ^ 63) ≤ r.msgOffset) (h5b : r.msgOffset < 2 ^ 63)
    (h6a : -(2 ^ 31) ≤ r.blockType) (h6b : r.blockType < 2 ^ 31)
    (h7a : -(2 ^ 63) ≤ r.blockSize) (h7b : r.blockSize < 2 ^ 63)
    (hnd : r ≠ defaultBlockInfo) :
    (storeGet w ref lastBlockInfo = none → GetBlockInfo p w = .ok (some sentinelBlockInfo)) ∧
    (∃ w1, WriteBlockInfo p w r = .ok w1 ∧ GetBlockInfo p w1 = .ok (some r)) := by
  have hbuf : protoMarshal r ≠ [] := fun hh => hnd (protoMarshal_eq_nil r hh)
  constructor
  · intro hab
    simp [GetBlockInfo, hm, hl, hdb, hab]
  · have hw : WriteBlockInfo p w r =
        .ok ⟨alSet ref (alSet lastBlockInfo (protoMarshal r) (getStore w ref)) w.stores,
          w.failing⟩ := by
      simp [WriteBlockInfo, hm, hl, hdb, batchWrite, hfail, applyOps]
    refine ⟨_, hw, ?_⟩
    have hsg : storeGet
        ⟨alSet ref (alSet lastBlockInfo (protoMarshal r) (getStore w ref)) w.stores,
          w.failing⟩ ref lastBlockInfo = some (protoMarshal r) := by
      unfold storeGet getStore
      rw [alSet_lookup]
      simp only [Option.getD]
      rw [alSet_lookup_bytes]
    have hrt := protoUnmarshal_protoMarshal r h3a h3b h5a h5b h6a h6b h7a h7b
    simp [GetBlockInfo, hm, hl, hdb, hsg, hrt, List.length_eq_zero, hbuf]

/-- Witness for C4's amended theorem: write then read {block_num 42,
msg_offset 7} on a pool whose metadata store is store 1. -/
theorem checkpoint_read_write_witness :
    (storeGet ⟨[], []⟩ "m" lastBlockInfo = none →
      GetBlockInfo ⟨[(1, ⟨1, some "m", "a", "leveldb", true⟩)], 1⟩ ⟨[], []⟩ =
        .ok (some sentinelBlockInfo)) ∧
    (∃ w1, WriteBlockInfo ⟨[(1, ⟨1, some "m", "a", "leveldb", true⟩)], 1⟩ ⟨[], []⟩
        ⟨[], [], 42, [], 7, 0, 0⟩ = .ok w1 ∧
      GetBlockInfo ⟨[(1, ⟨1, some "m", "a", "leveldb", true⟩)], 1⟩ w1 =
        .ok (some ⟨[], [], 42, [], 7, 0, 0⟩)) :=
  checkpoint_read_write _ _ ⟨1, some "m", "a", "leveldb", true⟩ "m" _
    (by decide) (by decide) (by decide) (by decide)
    (by decide) (by decide) (by decide) (by decide) (by decide) (by decide)
    (by decide) (by decide) (by decide)

/-- C5 counterexample: with stored bytes that fail to deserialize (the
truncated varint `[255]`), `GetBlockInfo` returns a nil record with no
error — which is distinguishable from the `{-1, -1}` sentinel returned when
the key is absent, contrary to the claim that the two results are
indistinguishable. -/
theorem corrupt_checkpoint_distinguishable_counterexample :
    GetBlockInfo ⟨[(1, ⟨1, some "m", "a", "leveldb", true⟩)], 1⟩
      ⟨[("m", [(lastBlockInfo, [255])])], []⟩ = .ok none ∧
    GetBlockInfo ⟨[(1, ⟨1, some "m", "a", "leveldb", true⟩)], 1⟩ ⟨[("m", [])], []⟩ =
      .ok (some sentinelBlockInfo) ∧
    GetBlockInfo ⟨[(1, ⟨1, some "m", "a", "leveldb", true⟩)], 1⟩
        ⟨[("m", [(lastBlockInfo, [255])])], []⟩ ≠
      GetBlockInfo ⟨[(1, ⟨1, some "m", "a", "leveldb", true⟩)], 1⟩ ⟨[("m", [])], []⟩ := by
  decide

/-- C5 (amended): when the nonempty bytes stored under the checkpoint key
fail to deserialize, `GetBlockInfo` returns a nil record and no error
(`return nil, nil`); this differs from the absent-key result, which is the
non-nil `{-1, -1}` sentinel record. -/
theorem corrupt_checkpoint_nil_no_error (p : DBPool) (w : World) (wrap : DBWrap)
    (ref : String) (buf : Bytes)
    (hm : p.metaDBID ≠ minInt32)
    (hl : List.lookup p.metaDBID p.dbs = some wrap)
    (hdb : wrap.db = some ref)
    (hget : storeGet w ref lastBlockInfo = some buf)
    (hne : buf ≠ [])
    (hbad : protoUnmarshal buf = none) :
    GetBlockInfo p w = .ok none ∧
    (RRes.ok (none : Option BlockInfo)) ≠ .ok (some sentinelBlockInfo) := by
  constructor
  · simp [GetBlockInfo, hm, hl, hdb, hget, hbad, List.length_eq_zero, hne]
  · simp

/-- Witness for C5's amended theorem at the corrupt byte string [255]. -/
theorem corrupt_checkpoint_nil_no_error_witness :
    GetBlockInfo ⟨[(1, ⟨1, some "m", "a", "leveldb", true⟩)], 1⟩
      ⟨[("m", [(lastBlockInfo, [255])])], []⟩ = .ok none ∧
    (RRes.ok (none : Option BlockInfo)) ≠ .ok (some sentinelBlockInfo) :=
  corrupt_checkpoint_nil_no_error _ _ ⟨1, some "m", "a", "leveldb", true⟩ "m" [255]
    (by decide) (by decide) (by decide) (by decide) (by decide) (by decide)

/-! ## C2: the metadata-designation invariant -/

theorem lookup_none_not_mem (k : Int) (l : List (Int × DBWrap))
    (h : List.lookup k l = none) : k ∉ l.map Prod.fst := by
  induction l with
  | nil => simp
  | cons x rest ih =>
    by_cases hk : k = x.1
    · subst hk
      simp [List.lookup] at h
    · simp only [List.lookup, beq_false_of_ne hk] at h
      simp only [List.map_cons, List.mem_cons]
      push_neg
      exact ⟨hk, ih h⟩

theorem lookup_append_self_fresh (k : Int) (v : DBWrap) (l : List (Int × DBWrap))
    (h : k ∉ l.map Prod.fst) : List.lookup k (l ++ [(k, v)]) = some v := by
  induction l with
  | nil => simp [List.lookup]
  | cons x rest ih =>
    simp only [List.map_cons, List.mem_cons] at h
    push_neg at h
    simp only [List.cons_append, List.lookup, beq_false_of_ne h.1]
    exact ih h.2

theorem filter_meta_le_one (l : List (Int × DBWrap)) (m : Int)
    (hnd : (l.map Prod.fst).Nodup)
    (hall : ∀ kw ∈ l, kw.2.isMeta = true → kw.1 = m) :
    (l.filter fun kw => kw.2.isMeta).length ≤ 1 := by
  induction l with
  | nil => simp
  | cons x xs ih =>
    simp only [List.map_cons, List.nodup_cons] at hnd
    by_cases hx : x.2.isMeta
    · have hnone : ∀ kw ∈ xs, ¬ (kw.2.isMeta = true) := by
        intro kw hkw hc
        have hkm : kw.1 = m := hall kw (by simp [hkw]) hc
        have hxm : x.1 = m := hall x (by simp) hx
        exact hnd.1 (by rw [hxm, ← hkm]; exact List.mem_map_of_mem Prod.fst hkw)
      have hfil : xs.filter (fun kw => kw.2.isMeta) = [] := by
        rw [List.filter_eq_nil_iff]
        intro a ha
        simp [hnone a ha]
      simp [List.filter_cons, hx, hfil]
    · have hxf : x.2.isMeta = false := by simpa using hx
      simp only [List.filter_cons, hxf, Bool.false_eq_true, if_false]
      exact ih hnd.2 (fun kw h hm => hall kw (by simp [h]) hm)

theorem StrongInv_MetaInv (p : DBPool) (h : StrongInv p) : MetaInv p := by
  obtain ⟨hnd, hcase⟩ := h
  constructor
  · rcases hcase with ⟨hmin, hall⟩ | ⟨hne, ⟨w0, hl0, hm0⟩, hall⟩
    · have hfil : p.dbs.filter (fun kw => kw.2.isMeta) = [] := by
        rw [List.filter_eq_nil_iff]
        intro a ha
        simp [hall a ha]
      simp [hfil]
    · exact filter_meta_le_one p.dbs p.metaDBID hnd hall
  · intro hne2
    rcases hcase with ⟨hmin, _⟩ | ⟨_, ⟨w0, hl0, hm0⟩, _⟩
    · exact absurd hmin hne2
    · simp [hl0, hm0]

theorem StrongInv_insert_nonmeta (p : DBPool) (id : Int) (w : DBWrap)
    (hfresh : id ∉ p.dbs.map Prod.fst) (hw : w.isMeta = false) (hinv : StrongInv p) :
    StrongInv ⟨p.dbs ++ [(id, w)], p.metaDBID⟩ := by
  obtain ⟨hnd, hcase⟩ := hinv
  constructor
  · rw [List.map_append]
    simp [List.nodup_append, hnd, hfresh]
  · rcases hcase with ⟨hmin, hall⟩ | ⟨hne, ⟨w0, hl0, hm0⟩, hall⟩
    · refine Or.inl ⟨hmin, ?_⟩
      intro kw hkw
      rcases List.mem_append.mp hkw with hin | hnew
      · exact hall kw hin
      · simp only [List.mem_singleton] at hnew
        rw [hnew]
        exact hw
    · refine Or.inr ⟨hne, ⟨w0, lookup_append_left _ _ _ _ hl0, hm0⟩, ?_⟩
      intro kw hkw hflag
      rcases List.mem_append.mp hkw with hin | hnew
      · exact hall kw hin hflag
      · simp only [List.mem_singleton] at hnew
        rw [hnew] at hflag
        simp [hw] at hflag

theorem StrongInv_insert_meta (p : DBPool) (id : Int) (w : DBWrap)
    (hfresh : id ∉ p.dbs.map Prod.fst) (hw : w.isMeta = true) (hid : id ≠ minInt32)
    (hmeta : p.metaDBID = minInt32) (hinv : StrongInv p) :
    StrongInv ⟨p.dbs ++ [(id, w)], id⟩ := by
  obtain ⟨hnd, hcase⟩ := hinv
  have hall0 : ∀ kw ∈ p.dbs, kw.2.isMeta = false := by
    rcases hcase with ⟨_, hall⟩ | ⟨hne, _, _⟩
    · exact hall
    · exact absurd hmeta hne
  constructor
  · rw [List.map_append]
    simp [List.nodup_append, hnd, hfresh]
  · refine Or.inr ⟨hid, ⟨w, lookup_append_self_fresh id w p.dbs hfresh, hw⟩, ?_⟩
    intro kw hkw hflag
    rcases List.mem_append.mp hkw with hin | hnew
    · rw [hall0 kw hin] at hflag
      exact absurd hflag (by simp)
    · simp only [List.mem_singleton] at hnew
      rw [hnew]

theorem cleanStep_preserves (p p' : DBPool) (c : Call) (hinv : StrongInv p)
    (h : cleanStep p c = some p') : StrongInv p' := by
  cases c with
  | register id path dbType db isMeta =>
    simp only [cleanStep] at h
    by_cases hcond : id = minInt32 ∨ (List.lookup id p.dbs).isSome
    · rw [if_pos hcond] at h
      simp at h
    · rw [if_neg hcond] at h
      push_neg at hcond
      obtain ⟨hidmin, hlook⟩ := hcond
      have hnone : List.lookup id p.dbs = none := by
        cases hL : List.lookup id p.dbs with
        | none => rfl
        | some v => rw [hL] at hlook; simp at hlook
      have hfresh : id ∉ p.dbs.map Prod.fst := lookup_none_not_mem id p.dbs hnone
      have hins : mapInsert p.dbs id ⟨id, db, path, dbType, isMeta⟩ =
          p.dbs ++ [(id, ⟨id, db, path, dbType, isMeta⟩)] :=
        alSet_fresh id _ p.dbs hfresh
      cases isMeta with
      | false =>
        simp only [Register] at h
        simp at h
        rw [← h, hins]
        exact StrongInv_insert_nonmeta p id ⟨id, db, path, dbType, false⟩ hfresh rfl hinv
      | true =>
        simp only [Register] at h
        by_cases hm : p.metaDBID = minInt32
        · simp [hm] at h
          rw [← h, hins]
          exact StrongInv_insert_meta p id ⟨id, db, path, dbType, true⟩ hfresh rfl
            hidmin hm hinv
        · simp [hm] at h
  | openCall info =>
    simp only [cleanStep] at h
    by_cases hcond : info.id = minInt32 ∨ (List.lookup info.id p.dbs).isSome
    · rw [if_pos hcond] at h
      simp at h
    · rw [if_neg hcond] at h
      push_neg at hcond
      obtain ⟨hidmin, hlook⟩ := hcond
      have hnone : List.lookup info.id p.dbs = none := by
        cases hL : List.lookup info.id p.dbs with
        | none => rfl
        | some v => rw [hL] at hlook; simp at hlook
      have hfresh : info.id ∉ p.dbs.map Prod.fst := lookup_none_not_mem info.id p.dbs hnone
      have hins : mapInsert p.dbs info.id
          ⟨info.id, some info.dbPath, info.dbPath, info.dbType, info.isMeta⟩ =
          p.dbs ++ [(info.id, ⟨info.id, some info.dbPath, info.dbPath, info.dbType,
            info.isMeta⟩)] :=
        alSet_fresh info.id _ p.dbs hfresh
      by_cases hty : info.dbType = "leveldb"
      · by_cases hscan : p.dbs.any (fun kw => kw.2.path = info.dbPath)
        · have ho : Open p info = (p, none) := by
            simp [Open, hnone, hty, hscan]
          rw [ho] at h
          simp at h
          rwa [← h]
        · by_cases hmeta : info.isMeta
          · by_cases hm : p.metaDBID = minInt32
            · have ho : Open p info =
                  (⟨mapInsert p.dbs info.id ⟨info.id, some info.dbPath, info.dbPath,
                    info.dbType, info.isMeta⟩, info.id⟩, none) := by
                simp [Open, hnone, hty, hscan, hmeta, hm]
              rw [ho] at h
              simp at h
              rw [← h, hins]
              exact StrongInv_insert_meta p info.id
                ⟨info.id, some info.dbPath, info.dbPath, info.dbType, info.isMeta⟩
                hfresh (by simpa using hmeta) hidmin hm hinv
            · have ho : Open p info =
                  (⟨mapInsert p.dbs info.id ⟨info.id, some info.dbPath, info.dbPath,
                    info.dbType, info.isMeta⟩, p.metaDBID⟩,
                   some .metaDBAlreadyRegistered) := by
                simp [Open, hnone, hty, hscan, hmeta, hm]
              rw [ho] at h
              simp at h
          · have ho : Open p info =
                (⟨mapInsert p.dbs info.id ⟨info.id, some info.dbPath, info.dbPath,
                  info.dbType, info.isMeta⟩, p.metaDBID⟩, none) := by
              simp [Open, hnone, hty, hscan, hmeta]
            rw [ho] at h
            simp at h
            rw [← h, hins]
            exact StrongInv_insert_nonmeta p info.id
              ⟨info.id, some info.dbPath, info.dbPath, info.dbType, info.isMeta⟩
              hfresh (by simpa using hmeta) hinv
      · have ho : Open p info = (p, none) := by
          simp [Open, hnone, hty]
        rw [ho] at h
        simp at h
        rwa [← h]

theorem runCleanFrom_preserves : ∀ (cs : List Call) (p q : DBPool), StrongInv p →
    runCleanFrom p cs = some q → StrongInv q := by
  intro cs
  induction cs with
  | nil =>
    intro p q h hr
    simp only [runCleanFrom, Option.some.injEq] at hr
    rwa [← hr]
  | cons c cs ih =>
    intro p q h hr
    simp only [runCleanFrom] at hr
    cases hc : cleanStep p c with
    | none => rw [hc] at hr; simp at hr
    | some p1 => rw [hc] at hr; exact ih p1 q (cleanStep_preserves p p1 c h hc) hr

theorem StrongInv_NewDBPool : StrongInv NewDBPool := by
  refine ⟨by simp [NewDBPool], Or.inl ⟨rfl, ?_⟩⟩
  intro kw hkw
  simp [NewDBPool] at hkw

/-- C2 counterexample: three abort-free call sequences from `NewDBPool`
reach registry states violating the claimed invariant.  (a) Registering id 1
as metadata and then re-registering id 1 without the flag leaves the
designated identifier pointing at an unflagged handle, with no panic.
(b) Registering the sentinel id `math.MinInt32` as metadata sets the
designation back to the sentinel, so a second metadata registration does
not panic and leaves two flagged handles.  (c) `Open` of a second
metadata-flagged descriptor returns an error — not an abort — yet inserts a
second flagged handle. -/
theorem MetaInv_counterexample :
    Register NewDBPool 1 "a" "leveldb" (some "s") true =
      some ⟨[(1, ⟨1, some "s", "a", "leveldb", true⟩)], 1⟩ ∧
    Register ⟨[(1, ⟨1, some "s", "a", "leveldb", true⟩)], 1⟩ 1 "a" "leveldb" (some "s") false =
      some ⟨[(1, ⟨1, some "s", "a", "leveldb", false⟩)], 1⟩ ∧
    ¬ MetaInv ⟨[(1, ⟨1, some "s", "a", "leveldb", false⟩)], 1⟩ ∧
    Register NewDBPool minInt32 "a" "leveldb" (some "s") true =
      some ⟨[(minInt32, ⟨minInt32, some "s", "a", "leveldb", true⟩)], minInt32⟩ ∧
    Register ⟨[(minInt32, ⟨minInt32, some "s", "a", "leveldb", true⟩)], minInt32⟩
        5 "b" "leveldb" (some "t") true =
      some ⟨[(minInt32, ⟨minInt32, some "s", "a", "leveldb", true⟩),
        (5, ⟨5, some "t", "b", "leveldb", true⟩)], 5⟩ ∧
    ¬ MetaInv ⟨[(minInt32, ⟨minInt32, some "s", "a", "leveldb", true⟩),
        (5, ⟨5, some "t", "b", "leveldb", true⟩)], 5⟩ ∧
    Open ⟨[(1, ⟨1, some "s", "a", "leveldb", true⟩)], 1⟩ ⟨2, "leveldb", "q", true⟩ =
      (⟨[(1, ⟨1, some "s", "a", "leveldb", true⟩),
        (2, ⟨2, some "q", "q", "leveldb", true⟩)], 1⟩, some .metaDBAlreadyRegistered) ∧
    ¬ MetaInv ⟨[(1, ⟨1, some "s", "a", "leveldb", true⟩),
        (2, ⟨2, some "q", "q", "leveldb", true⟩)], 1⟩ := by
  decide

/-- C2 (amended): in every registry state reachable from `NewDBPool` by a
sequence of `Register` and `Open` calls in which every call's identifier
differs from the sentinel `math.MinInt32` and from every identifier already
in the registry, and in which no call panicked or returned an error
(`runClean`), at most one stored handle has the metadata flag set, and
whenever the designated metadata identifier is not the sentinel it maps to
a handle whose metadata flag is set. -/
theorem runClean_MetaInv (cs : List Call) (p : DBPool) (h : runClean cs = some p) :
    MetaInv p :=
  StrongInv_MetaInv p (runCleanFrom_preserves cs NewDBPool p StrongInv_NewDBPool h)

/-- Witness for C2's amended theorem: register a metadata store, then open
a second, non-metadata store. -/
theorem runClean_MetaInv_witness :
    runClean [Call.register 1 "a" "leveldb" (some "s") true,
      Call.openCall ⟨2, "leveldb", "q", false⟩] =
      some ⟨[(1, ⟨1, some "s", "a", "leveldb", true⟩),
        (2, ⟨2, some "q", "q", "leveldb", false⟩)], 1⟩ ∧
    MetaInv ⟨[(1, ⟨1, some "s", "a", "leveldb", true⟩),
      (2, ⟨2, some "q", "q", "leveldb", false⟩)], 1⟩ :=
  ⟨by decide,
   runClean_MetaInv [Call.register 1 "a" "leveldb" (some "s") true,
     Call.openCall ⟨2, "leveldb", "q", false⟩] _ (by decide)⟩
